import Mathlib

/- Verification of the env-guardian schema-driven environment validator.
   The definitions below are a shallow embedding of the JavaScript source
   (class EnvGuardian in index.js): each JS method becomes a Lean function,
   thrown errors become Except/explicit outcome values, and the JS builtins
   the code relies on (Number, String.prototype.split/trim/toLowerCase,
   the WHATWG URL constructor, RegExp.test) are modelled by executable Lean
   functions over strings and rationals as documented at each definition. -/

set_option maxRecDepth 4000

/- Error object. Models EnvGuardianError (message + variable) as well as the
   plain Error thrown for a malformed enum spec; a plain Error carries no
   variable, modelled as varName = none. -/
structure EGError where
  message : String
  varName : Option String
deriving DecidableEq, Repr

/- JavaScript number values as produced by Number(string): NaN, the two
   infinities, or a finite value. Finite values are modelled as rationals;
   IEEE-754 rounding of long mantissas and overflow to Infinity for huge
   exponents are not modelled (no input considered here depends on them). -/
inductive JSNum where
  | nan
  | posInf
  | negInf
  | fin (q : ℚ)
deriving DecidableEq, Repr

/- isNaN(n) for a JSNum. -/
def JSNum.isNaN : JSNum → Bool
  | .nan => true
  | _ => false

/- The JS comparison n < m for a finite bound m (NaN compares false). -/
def JSNum.ltQ : JSNum → ℚ → Bool
  | .nan, _ => false
  | .posInf, _ => false
  | .negInf, _ => true
  | .fin q, m => q < m

/- The JS comparison n > m for a finite bound m (NaN compares false). -/
def JSNum.gtQ : JSNum → ℚ → Bool
  | .nan, _ => false
  | .posInf, _ => true
  | .negInf, _ => false
  | .fin q, m => m < q

/- Number.isInteger: finite with no fractional part. -/
def JSNum.isInt : JSNum → Bool
  | .fin q => q.den = 1
  | _ => false

/- Coerced values a field can produce: the outputs of the built-in coercers
   (string-valued coercers, number, boolean, array) — custom validators are
   modelled as returning one of these as well. -/
inductive Value where
  | str (s : String)
  | num (n : JSNum)
  | bool (b : Bool)
  | arr (items : List String)
deriving DecidableEq, Repr

/- JS values usable as a schema `default`. The source applies String(d) to
   the default; the defaults appearing in this repository are strings,
   booleans and integral numbers, so numeric defaults are modelled as Int
   (String(n) for an integral JS number prints without a decimal point). -/
inductive JSVal where
  | str (s : String)
  | num (n : Int)
  | bool (b : Bool)
deriving DecidableEq, Repr

/- String(d) for a default value d. -/
def jsToString : JSVal → String
  | .str s => s
  | .num n => toString n
  | .bool b => if b then "true" else "false"

mutual
/- The `type` attribute of a field spec: either a string tag (one of the
   built-in tags, or any other string, dispatched by parseValue's switch) or
   a custom validator function. The source passes (value, key, config) to a
   custom function; the config argument is inessential for the validators in
   this repository (they use only value and key), so the model passes
   (value, key) and lets a concrete validator close over anything else. -/
inductive FieldType where
  | tag (t : String)
  | custom (f : String → String → Except EGError Value)
end

/- One field's configuration object. Field defaults mirror the destructuring
   `const { type = 'string', required = false, default: defaultValue }`.
   `pattern` models a RegExp as its test function; `min`/`max` are finite
   numbers; `minLength`/`maxLength` are naturals (the source applies them to
   lengths and checks them for truthiness, so 0 behaves like absent). -/
structure FieldConfig where
  type : FieldType := .tag "string"
  required : Bool := false
  defaultVal : Option JSVal := none
  minLength : Option Nat := none
  maxLength : Option Nat := none
  pattern : Option (String → Bool) := none
  min : Option ℚ := none
  max : Option ℚ := none
  integer : Bool := false
  separator : Option String := none
  protocols : Option (List String) := none
  values : Option (List String) := none

/- A schema entry: a structured spec object, or a bare type (string tag or
   function), which `validate` normalizes to { type: definition }. -/
inductive FieldDef where
  | spec (c : FieldConfig)
  | bare (t : FieldType)

/- `typeof definition === 'object' ? definition : { type: definition }`. -/
def normalizeDef : FieldDef → FieldConfig
  | .spec c => c
  | .bare t => { type := t }

/- String helpers (structural-recursion models of the JS builtins used). -/

/- Whether the first list is an initial segment of the second. -/
def leadsWith : List Char → List Char → Bool
  | [], _ => true
  | _ :: _, [] => false
  | a :: as, b :: bs => a = b && leadsWith as bs

/- Fuel-driven worker for splitting on a separator, leftmost-first, as
   String.prototype.split does for a non-empty string separator. -/
def splitCharsAux (sep : List Char) : Nat → List Char → List Char → List (List Char)
  | 0, cs, acc => [acc.reverse ++ cs]
  | _ + 1, [], acc => [acc.reverse]
  | n + 1, c :: rest, acc =>
    if leadsWith sep (c :: rest) then
      acc.reverse :: splitCharsAux sep n ((c :: rest).drop sep.length) []
    else
      splitCharsAux sep n rest (c :: acc)

def splitChars (sep cs : List Char) : List (List Char) :=
  splitCharsAux sep (cs.length + 1) cs []

/- value.split(separator) for a non-empty separator string. -/
def jsSplit (s sep : String) : List String :=
  (splitChars sep.toList s.toList).map (fun cs => String.mk cs)

/- item.trim(): strip leading and trailing whitespace (ASCII whitespace; the
   JS set additionally contains exotic Unicode spaces, which no input
   considered here uses). -/
def jsTrim (s : String) : String :=
  String.mk (((s.toList.dropWhile Char.isWhitespace).reverse.dropWhile Char.isWhitespace).reverse)

/- value.toLowerCase() (ASCII case mapping). -/
def strLower (s : String) : String :=
  String.mk (s.toList.map Char.toLower)

/- A character admissible in the email regex classes [^\s@]. -/
def isEmailChar (c : Char) : Bool :=
  !c.isWhitespace && c != '@'

/- The test /^[^\s@]+@[^\s@]+\.[^\s@]+$/.test(value): exactly one @, a
   nonempty local part, and a domain containing a dot with nonempty text on
   both sides, no whitespace anywhere. -/
def emailMatches (s : String) : Bool :=
  match jsSplit s "@" with
  | [a, d] =>
    a != "" && a.toList.all isEmailChar && d.toList.all isEmailChar &&
      ((d.toList.drop 1).dropLast.contains '.')
  | _ => false

/- Models the WHATWG URL constructor as used by validateUrl: `new URL(value)`
   succeeds when the input starts with an ASCII-alphabetic scheme followed by
   ASCII alphanumerics or + - . and a colon, and url.protocol.slice(0, -1) is
   that scheme lowercased. Host and path validation for special schemes is
   not modelled; none of the inputs considered here depend on it. -/
def isSchemeChar (c : Char) : Bool :=
  c.isAlphanum || c = '+' || c = '-' || c = '.'

def parseURL (s : String) : Option String :=
  match s.toList with
  | [] => none
  | c :: rest =>
    if c.isAlpha then
      match rest.dropWhile isSchemeChar with
      | ':' :: _ => some (String.mk ((c :: rest.takeWhile isSchemeChar).map Char.toLower))
      | _ => none
    else none

/- Number(string) machinery. -/

/- Value of a digit list in a given base, none if empty or a digit is out of
   range for the base. -/
def radixDigit (b : Nat) (c : Char) : Option Nat :=
  let v :=
    if '0' ≤ c ∧ c ≤ '9' then some (c.toNat - 48)
    else if 'a' ≤ c ∧ c ≤ 'f' then some (c.toNat - 87)
    else if 'A' ≤ c ∧ c ≤ 'F' then some (c.toNat - 55)
    else none
  match v with
  | some d => if d < b then some d else none
  | none => none

def radixVal (b : Nat) : List Char → Option Nat → Option Nat
  | [], acc => acc
  | c :: cs, acc =>
    match acc, radixDigit b c with
    | some a, some d => radixVal b cs (some (a * b + d))
    | _, _ => none

/- Value of a nonempty list of chars as digits in base b, as a JSNum. -/
def parseRadix (b : Nat) (cs : List Char) : JSNum :=
  match cs with
  | [] => .nan
  | _ =>
    match radixVal b cs (some 0) with
    | some n => .fin (mkRat n 1)
    | none => .nan

/- Value of decimal digits as a natural number. -/
def natDigitsVal (cs : List Char) : Nat :=
  cs.foldl (fun a c => a * 10 + (c.toNat - 48)) 0

/- A StrDecimalLiteral after the radix prefixes have been ruled out:
   [+-]? (Digits [. Digits?] | . Digits) ([eE] [+-]? Digits)?  consuming the
   whole input, else NaN. The value is assembled as a single rational
   mantissaNumerator / 10^fracLen, scaled by the exponent. -/
def parseDecimal (cs : List Char) : JSNum :=
  let signed : Bool × List Char :=
    match cs with
    | '+' :: r => (false, r)
    | '-' :: r => (true, r)
    | r => (false, r)
  let neg := signed.1
  let cs1 := signed.2
  let intDigits := cs1.takeWhile Char.isDigit
  let rest1 := cs1.dropWhile Char.isDigit
  let fracSplit : List Char × List Char :=
    match rest1 with
    | '.' :: r => (r.takeWhile Char.isDigit, r.dropWhile Char.isDigit)
    | r => ([], r)
  let fracDigits := fracSplit.1
  let rest2 := fracSplit.2
  if intDigits = [] ∧ fracDigits = [] then .nan
  else
    let mantAbs : Int := natDigitsVal intDigits * 10 ^ fracDigits.length + natDigitsVal fracDigits
    let mantNum : Int := if neg then -mantAbs else mantAbs
    let mantDen : Nat := 10 ^ fracDigits.length
    match rest2 with
    | [] => .fin (mkRat mantNum mantDen)
    | e :: r =>
      if e = 'e' ∨ e = 'E' then
        let esigned : Bool × List Char :=
          match r with
          | '+' :: rr => (false, rr)
          | '-' :: rr => (true, rr)
          | rr => (false, rr)
        let eDigits := esigned.2.takeWhile Char.isDigit
        let r3 := esigned.2.dropWhile Char.isDigit
        if eDigits = [] ∨ r3 ≠ [] then .nan
        else
          let ev := natDigitsVal eDigits
          if esigned.1 then .fin (mkRat mantNum (mantDen * 10 ^ ev))
          else .fin (mkRat (mantNum * 10 ^ ev) mantDen)
      else .nan

/- Number(value) for a string: trims whitespace, empty input is 0, Infinity
   literals, radix-prefixed integers, otherwise a decimal literal. -/
def jsToNumber (s : String) : JSNum :=
  let t := jsTrim s
  if t = "" then .fin 0
  else if t = "Infinity" ∨ t = "+Infinity" then .posInf
  else if t = "-Infinity" then .negInf
  else
    match t.toList with
    | '0' :: 'x' :: rest => parseRadix 16 rest
    | '0' :: 'X' :: rest => parseRadix 16 rest
    | '0' :: 'o' :: rest => parseRadix 8 rest
    | '0' :: 'O' :: rest => parseRadix 8 rest
    | '0' :: 'b' :: rest => parseRadix 2 rest
    | '0' :: 'B' :: rest => parseRadix 2 rest
    | cs => parseDecimal cs

/- Error values thrown by the validators (message text as in the source). -/

def missingError (key : String) : EGError :=
  ⟨s!"Missing required environment variable: {key}", some key⟩

def strMinError (key : String) (n : Nat) : EGError :=
  ⟨s!"{key} must be at least {n} characters long", some key⟩

def strMaxError (key : String) (n : Nat) : EGError :=
  ⟨s!"{key} must be no more than {n} characters long", some key⟩

def strPatError (key : String) : EGError :=
  ⟨s!"{key} does not match required pattern", some key⟩

def numTypeError (key value : String) : EGError :=
  ⟨s!"Invalid type for {key}. Expected number, got \"{value}\"", some key⟩

def numMinError (key : String) (m : ℚ) : EGError :=
  ⟨s!"{key} must be at least {m}", some key⟩

def numMaxError (key : String) (m : ℚ) : EGError :=
  ⟨s!"{key} must be no more than {m}", some key⟩

def numIntError (key : String) : EGError :=
  ⟨s!"{key} must be an integer", some key⟩

def boolTypeError (key value : String) : EGError :=
  ⟨s!"Invalid type for {key}. Expected boolean, got \"{value}\"", some key⟩

def arrMinError (key : String) (n : Nat) : EGError :=
  ⟨s!"{key} must have at least {n} items", some key⟩

def arrMaxError (key : String) (n : Nat) : EGError :=
  ⟨s!"{key} must have no more than {n} items", some key⟩

def urlInvalidError (key value : String) : EGError :=
  ⟨s!"Invalid URL for {key}: \"{value}\"", some key⟩

def emailError (key value : String) : EGError :=
  ⟨s!"Invalid email format for {key}: \"{value}\"", some key⟩

def enumCfgError (key : String) : EGError :=
  ⟨s!"Enum validation requires \x27values\x27 array for {key}", none⟩

def enumValueError (key value : String) (vs : List String) : EGError :=
  let joined := String.intercalate ", " vs
  ⟨s!"{key} must be one of: {joined}. Got \"{value}\"", some key⟩

/- validateString: the typeof guard in the source is vacuous here (the input
   is a string by type); then the three checks in source order. The source
   guards each length bound by truthiness (config.minLength && …), so a
   configured bound of 0 is skipped. -/

def strCheckMin (value key : String) (config : FieldConfig) : Option EGError :=
  match config.minLength with
  | some n => if n ≠ 0 ∧ value.length < n then some (strMinError key n) else none
  | none => none

def strCheckMax (value key : String) (config : FieldConfig) : Option EGError :=
  match config.maxLength with
  | some n => if n ≠ 0 ∧ n < value.length then some (strMaxError key n) else none
  | none => none

def strCheckPat (value key : String) (config : FieldConfig) : Option EGError :=
  match config.pattern with
  | some p => if p value then none else some (strPatError key)
  | none => none

def validateString (value key : String) (config : FieldConfig) : Except EGError String :=
  match strCheckMin value key config with
  | some e => .error e
  | none =>
    match strCheckMax value key config with
    | some e => .error e
    | none =>
      match strCheckPat value key config with
      | some e => .error e
      | none => .ok value

/- validateNumber: Number(value), NaN check, then min (!== undefined guard),
   max, integer, in source order. -/

def numCheckMin (num : JSNum) (key : String) (config : FieldConfig) : Option EGError :=
  match config.min with
  | some m => if num.ltQ m then some (numMinError key m) else none
  | none => none

def numCheckMax (num : JSNum) (key : String) (config : FieldConfig) : Option EGError :=
  match config.max with
  | some m => if num.gtQ m then some (numMaxError key m) else none
  | none => none

def numCheckInt (num : JSNum) (key : String) (config : FieldConfig) : Option EGError :=
  if config.integer && !num.isInt then some (numIntError key) else none

def validateNumber (value key : String) (config : FieldConfig) : Except EGError JSNum :=
  let num := jsToNumber value
  if num.isNaN then .error (numTypeError key value)
  else
    match numCheckMin num key config with
    | some e => .error e
    | none =>
      match numCheckMax num key config with
      | some e => .error e
      | none =>
        match numCheckInt num key config with
        | some e => .error e
        | none => .ok num

/- validateBoolean: case-insensitive membership in the accepted token sets. -/
def validateBoolean (value key : String) : Except EGError Bool :=
  let lower := strLower value
  if lower = "true" ∨ lower = "1" ∨ lower = "yes" then .ok true
  else if lower = "false" ∨ lower = "0" ∨ lower = "no" then .ok false
  else .error (boolTypeError key value)

/- validateArray: split on the separator (|| ',' makes an empty separator
   fall back to the comma), trim each item, then truthiness-guarded length
   bounds on the item count. -/
def validateArray (value key : String) (config : FieldConfig) : Except EGError (List String) :=
  let separator :=
    match config.separator with
    | some s => if s = "" then "," else s
    | none => ","
  let items := (jsSplit value separator).map jsTrim
  match config.minLength with
  | some n =>
    if n ≠ 0 ∧ items.length < n then .error (arrMinError key n)
    else
      match config.maxLength with
      | some m =>
        if m ≠ 0 ∧ m < items.length then .error (arrMaxError key m) else .ok items
      | none => .ok items
  | none =>
    match config.maxLength with
    | some m =>
      if m ≠ 0 ∧ m < items.length then .error (arrMaxError key m) else .ok items
    | none => .ok items

/- validateUrl. In the source the whole body is wrapped in try/catch: when
   the protocol check fails, the EnvGuardianError it throws is caught by the
   function's own catch clause, which throws the generic Invalid-URL error
   instead — so a protocol violation surfaces with the Invalid-URL message,
   and the protocols message is unreachable. The model returns directly what
   escapes the try/catch. config.protocols is truthiness-guarded, and an
   array (even empty) is truthy. -/
def validateUrl (value key : String) (config : FieldConfig) : Except EGError String :=
  match parseURL value with
  | none => .error (urlInvalidError key value)
  | some scheme =>
    match config.protocols with
    | some ps =>
      if ps.contains scheme then .ok value
      else .error (urlInvalidError key value)
    | none => .ok value

/- validateEmail: the fixed pattern test. -/
def validateEmail (value key : String) : Except EGError String :=
  if emailMatches value then .ok value else .error (emailError key value)

/- validateEnum: a missing or non-array `values` throws a plain Error (no
   variable attached); otherwise membership in the list. -/
def validateEnum (value key : String) (config : FieldConfig) : Except EGError String :=
  match config.values with
  | none => .error (enumCfgError key)
  | some vs =>
    if vs.contains value then .ok value
    else .error (enumValueError key value vs)

/- parseValue: the dispatch switch. A string tag matching none of the seven
   built-in cases, like a function, reaches the default branch; a function is
   invoked, any other value is returned unchanged. -/
def parseValue (value : String) (type : FieldType) (key : String) (config : FieldConfig) :
    Except EGError Value :=
  match type with
  | .tag t =>
    if t = "string" then (validateString value key config).map .str
    else if t = "number" then (validateNumber value key config).map .num
    else if t = "boolean" then (validateBoolean value key).map .bool
    else if t = "array" then (validateArray value key config).map .arr
    else if t = "url" then (validateUrl value key config).map .str
    else if t = "email" then (validateEmail value key).map .str
    else if t = "enum" then (validateEnum value key config).map .str
    else .ok (.str value)
  | .custom f => f value key

/- The outcome of the loop body of `validate` for one field:
   - setValue v: result[key] was assigned (some coerced value, or none for
     the explicit `result[key] = undefined` of an absent optional field);
   - missingRequired e: the missing-required error was pushed onto the error
     list (never thrown, even in strict mode) and the field skipped;
   - threw e: parseValue threw e, to be rethrown (strict) or pushed. -/
inductive FieldOutcome where
  | setValue (v : Option Value)
  | missingRequired (e : EGError)
  | threw (e : EGError)
deriving DecidableEq, Repr

def FieldOutcome.isThrew : FieldOutcome → Bool
  | .threw _ => true
  | _ => false

def FieldOutcome.sets : FieldOutcome → Bool
  | .setValue _ => true
  | _ => false

/- The loop body of validate for one (key, definition) entry, reading the
   raw value from the environment mapping env. -/
def processField (env : String → Option String) (key : String) (defn : FieldDef) :
    FieldOutcome :=
  let config := normalizeDef defn
  let value0 := env key
  if value0 = none ∨ value0 = some "" then
    if config.required then .missingRequired (missingError key)
    else
      match config.defaultVal with
      | some d =>
        match parseValue (jsToString d) config.type key config with
        | .ok v => .setValue (some v)
        | .error e => .threw e
      | none => .setValue none
  else
    match parseValue ((env key).getD "") config.type key config with
    | .ok v => .setValue (some v)
    | .error e => .threw e

/- A ValidationResult: values is the result object in insertion order (a key
   maps to none when the source assigned undefined), errors is null when the
   error list is empty, isValid derived from it. -/
structure ValidationResult where
  values : List (String × Option Value)
  errors : Option (List EGError)
  isValid : Bool
deriving DecidableEq, Repr

/- The combined error thrown after the loop when errors exist and strict is
   not false. -/
def combinedError (errs : List EGError) : EGError :=
  let msgs := String.intercalate "\n" (errs.map EGError.message)
  ⟨"Environment validation failed:\n" ++ msgs, none⟩

/- The field loop: in strict mode a thrown coercion error aborts the run;
   otherwise outcomes accumulate into the result object and error list. -/
def runFields (strict : Bool) (env : String → Option String) :
    List (String × FieldDef) → List (String × Option Value) → List EGError →
    Except EGError (List (String × Option Value) × List EGError)
  | [], result, errors => .ok (result, errors)
  | (key, defn) :: rest, result, errors =>
    match processField env key defn with
    | .setValue v => runFields strict env rest (result ++ [(key, v)]) errors
    | .missingRequired e => runFields strict env rest result (errors ++ [e])
    | .threw e =>
      if strict then .error e
      else runFields strict env rest result (errors ++ [e])

/- EnvGuardian.validate. The post-loop `errors.length > 0 && strict !== false`
   check (strict modelled as a Bool) throws the combined error; otherwise the
   ValidationResult is returned with errors null when the list is empty. -/
def validate (strict : Bool) (env : String → Option String)
    (schema : List (String × FieldDef)) : Except EGError ValidationResult :=
  match runFields strict env schema [] [] with
  | .error e => .error e
  | .ok (result, errors) =>
    if strict ∧ errors ≠ [] then .error (combinedError errors)
    else .ok ⟨result, if errors.isEmpty then none else some errors, errors.isEmpty⟩

/- The entry for a field in the final result object, when its processing set
   one. -/
def valueEntry (env : String → Option String) (p : String × FieldDef) :
    Option (String × Option Value) :=
  match processField env p.1 p.2 with
  | .setValue v => some (p.1, v)
  | _ => none

/- The error a field contributes to the collected error list, if any. -/
def errorOf (env : String → Option String) (p : String × FieldDef) : Option EGError :=
  match processField env p.1 p.2 with
  | .missingRequired e => some e
  | .threw e => some e
  | _ => none

/- Wrapping of a coercion result into the loop-body outcome. -/
def fieldOutcomeOfParse : Except EGError Value → FieldOutcome
  | .ok v => .setValue (some v)
  | .error e => .threw e

/- Closed form of the field loop whenever it cannot abort: in collect-all
   mode unconditionally, and in strict mode when no field's coercion throws.
   The result object and the error list are the schema-order filterMaps of
   the per-field outcomes. -/
theorem runFields_eq (env : String → Option String) (strict : Bool) :
    ∀ (schema : List (String × FieldDef)) (res : List (String × Option Value))
      (errs : List EGError),
    (strict = false ∨ ∀ p ∈ schema, (processField env p.1 p.2).isThrew = false) →
    runFields strict env schema res errs =
      .ok (res ++ schema.filterMap (valueEntry env),
           errs ++ schema.filterMap (errorOf env)) := by
  intro schema
  induction schema with
  | nil => intro res errs _; simp [runFields]
  | cons p rest ih =>
    intro res errs h
    obtain ⟨key, defn⟩ := p
    have hrest : strict = false ∨ ∀ q ∈ rest, (processField env q.1 q.2).isThrew = false := by
      rcases h with h | h
      · exact Or.inl h
      · exact Or.inr fun q hq => h q (List.mem_cons_of_mem _ hq)
    simp only [runFields]
    cases hout : processField env key defn with
    | setValue v =>
      show runFields strict env rest (res ++ [(key, v)]) errs = _
      rw [ih _ _ hrest]
      simp [valueEntry, errorOf, hout]
    | missingRequired e =>
      show runFields strict env rest res (errs ++ [e]) = _
      rw [ih _ _ hrest]
      simp [valueEntry, errorOf, hout]
    | threw e =>
      have hs : strict = false := by
        rcases h with h | h
        · exact h
        · have hcontra := h (key, defn) (List.mem_cons_self _ _)
          rw [hout] at hcontra
          simp [FieldOutcome.isThrew] at hcontra
      subst hs
      show runFields false env rest res (errs ++ [e]) = _
      rw [ih _ _ hrest]
      simp [valueEntry, errorOf, hout]

/- In strict mode the loop aborts with the first thrown coercion error: if
   no field before (k, d) throws and (k, d)'s coercion throws e, the whole
   run errors with e, whatever fields follow. -/
theorem runFields_abort (env : String → Option String) (k : String) (d : FieldDef)
    (e : EGError) (hk : processField env k d = .threw e) :
    ∀ (pre post : List (String × FieldDef)) (res : List (String × Option Value))
      (errs : List EGError),
    (∀ p ∈ pre, (processField env p.1 p.2).isThrew = false) →
    runFields true env (pre ++ (k, d) :: post) res errs = .error e := by
  intro pre
  induction pre with
  | nil =>
    intro post res errs _
    simp [runFields, hk]
  | cons p rest ih =>
    intro post res errs h
    obtain ⟨key, defn⟩ := p
    simp only [List.cons_append, runFields]
    cases hout : processField env key defn with
    | setValue v =>
      show runFields true env (rest ++ (k, d) :: post) (res ++ [(key, v)]) errs = _
      exact ih post _ _ fun q hq => h q (List.mem_cons_of_mem _ hq)
    | missingRequired e2 =>
      show runFields true env (rest ++ (k, d) :: post) res (errs ++ [e2]) = _
      exact ih post _ _ fun q hq => h q (List.mem_cons_of_mem _ hq)
    | threw e2 =>
      have hcontra := h (key, defn) (List.mem_cons_self _ _)
      rw [hout] at hcontra
      simp [FieldOutcome.isThrew] at hcontra

/- Concrete schemas and environments used by counterexamples and witnesses. -/

/- Environment where only B is set. -/
def env1 : String → Option String := fun k => if k = "B" then some "x" else none

/- A side-effect-observable custom validator for field B: if invoked, its
   error surfaces. -/
def fB : String → String → Except EGError Value :=
  fun _ _ => .error ⟨"custom validator for B was invoked", some "B"⟩

/- Field A is required and absent; field B comes after A and has the custom
   validator. -/
def schema1 : List (String × FieldDef) :=
  [("A", .spec { required := true }), ("B", .spec { type := .custom fB })]

/-- C1, counterexample: in strict mode with schema {A: required (absent),
B: custom validator}, the first failing field is A (missing required), yet
validate does not raise A's error: it processes B, invokes B's custom
validator, and raises B's error — refuting that the first failing field of
any error kind aborts immediately and that later custom validators are never
invoked. -/
theorem C1_strict_counterexample :
    validate true env1 schema1 =
      .error ⟨"custom validator for B was invoked", some "B"⟩ := by rfl

/-- C1 (amended): in strict mode, the first field whose COERCION throws
(type coercer, custom validator, or enum-configuration error) causes
validate to raise that error immediately and no field after it is processed
(the conclusion is independent of the fields in `post`). A missing required
variable, by contrast, does not abort: its error is only recorded and
processing continues, and if the pass ends with recorded errors validate
raises the combined Environment-validation-failed error. -/
theorem C1_strict_firstThrow (env : String → Option String) :
    (∀ (pre post : List (String × FieldDef)) (k : String) (d : FieldDef) (e : EGError),
      (∀ p ∈ pre, (processField env p.1 p.2).isThrew = false) →
      processField env k d = .threw e →
      validate true env (pre ++ (k, d) :: post) = .error e) ∧
    (∀ schema : List (String × FieldDef),
      (∀ p ∈ schema, (processField env p.1 p.2).isThrew = false) →
      schema.filterMap (errorOf env) ≠ [] →
      validate true env schema = .error (combinedError (schema.filterMap (errorOf env)))) := by
  constructor
  · intro pre post k d e hpre hk
    unfold validate
    rw [runFields_abort env k d e hk pre post [] [] hpre]
  · intro schema hnothrow hne
    unfold validate
    rw [runFields_eq env true schema [] [] (Or.inr hnothrow)]
    simp [hne]

/-- C1 witness: instantiating the amended strict-mode theorem on schema
[B: custom validator that throws, A: required and absent] yields the custom
validator's error, with the hypotheses discharged at this concrete input. -/
theorem C1_strict_firstThrow_witness :
    validate true env1 [("B", .spec { type := .custom fB }), ("A", .spec { required := true })] =
      .error ⟨"custom validator for B was invoked", some "B"⟩ :=
  (C1_strict_firstThrow env1).1 [] [("A", .spec { required := true })] "B"
    (.spec { type := .custom fB }) _ (fun p hp => absurd hp (List.not_mem_nil p)) rfl

/- An enum field whose spec lacks a `values` list throws the configuration
   error from its coercion, for any present non-empty raw value. -/
theorem processField_enumCfg (env : String → Option String) (k v : String)
    (c : FieldConfig) (htype : c.type = .tag "enum") (hvals : c.values = none)
    (hv : env k = some v) (hne : v ≠ "") :
    processField env k (.spec c) = .threw (enumCfgError k) := by
  unfold processField normalizeDef
  rw [hv]
  have hcond : ¬(some v = none ∨ some v = some "") := by simp [hne]
  rw [if_neg hcond]
  rw [htype]
  simp [parseValue, validateEnum, hvals, Except.map]

/- Environment where only X is set (to "a"). -/
def env2 : String → Option String := fun k => if k = "X" then some "a" else none

/- A single enum field with no `values` list. -/
def schema2 : List (String × FieldDef) := [("X", .spec { type := .tag "enum" })]

/-- C2, counterexample: in collect-all mode (strict false), an enum field
whose spec has no `values` list does NOT make validate raise: validate
returns a ValidationResult whose error list contains the configuration
error — it is merely appended, refuting that the error is raised
immediately in both modes. -/
theorem C2_enumConfig_counterexample :
    validate false env2 schema2 =
      .ok ⟨[], some [⟨"Enum validation requires \x27values\x27 array for X", none⟩], false⟩ := by
  rfl

/-- C2 (amended): the enum schema-configuration error (a non-field-scoped
error) is raised immediately only in strict mode; in collect-all mode it is
appended to the collected error list like any other field failure, and
validate returns normally with it inside the result. -/
theorem C2_enumConfig_amended (env : String → Option String)
    (pre post : List (String × FieldDef)) (k v : String) (c : FieldConfig)
    (htype : c.type = .tag "enum") (hvals : c.values = none)
    (hv : env k = some v) (hne : v ≠ "")
    (hpre : ∀ p ∈ pre, (processField env p.1 p.2).isThrew = false) :
    validate true env (pre ++ (k, .spec c) :: post) = .error (enumCfgError k) ∧
    ∀ r, validate false env (pre ++ (k, .spec c) :: post) = .ok r →
      ∃ l, r.errors = some l ∧ enumCfgError k ∈ l := by
  have hpf := processField_enumCfg env k v c htype hvals hv hne
  constructor
  · unfold validate
    rw [runFields_abort env k (.spec c) _ hpf pre post [] [] hpre]
  · intro r hr
    unfold validate at hr
    rw [runFields_eq env false _ [] [] (Or.inl rfl)] at hr
    simp only [List.nil_append, Bool.false_eq_true, false_and, if_false, reduceCtorEq,
      if_neg, Except.ok.injEq] at hr
    have hmem : enumCfgError k ∈ (pre ++ (k, FieldDef.spec c) :: post).filterMap (errorOf env) := by
      apply List.mem_filterMap.mpr
      refine ⟨(k, .spec c), ?_, ?_⟩
      · exact List.mem_append_right _ (List.mem_cons_self _ _)
      · simp [errorOf, hpf]
    have hnonempty : (pre ++ (k, FieldDef.spec c) :: post).filterMap (errorOf env) ≠ [] := by
      intro hcontra
      rw [hcontra] at hmem
      exact absurd hmem (List.not_mem_nil _)
    refine ⟨(pre ++ (k, FieldDef.spec c) :: post).filterMap (errorOf env), ?_, hmem⟩
    have hie : ((pre ++ (k, FieldDef.spec c) :: post).filterMap (errorOf env)).isEmpty = false := by
      cases hL : (pre ++ (k, FieldDef.spec c) :: post).filterMap (errorOf env) with
      | nil => exact absurd hL hnonempty
      | cons a as => rfl
    rw [← hr]
    show (if (List.filterMap (errorOf env) (pre ++ (k, FieldDef.spec c) :: post)).isEmpty = true
          then none
          else some (List.filterMap (errorOf env) (pre ++ (k, FieldDef.spec c) :: post))) =
        some (List.filterMap (errorOf env) (pre ++ (k, FieldDef.spec c) :: post))
    rw [hie]
    rfl

/-- C2 witness: the strict half of the amended claim applied to the concrete
schema {X: enum without values} with X set to "a": validate raises the
configuration error. -/
theorem C2_enumConfig_amended_witness :
    validate true env2 schema2 = .error (enumCfgError "X") :=
  (C2_enumConfig_amended env2 [] [] "X" "a" { type := .tag "enum" } rfl rfl rfl
    (by decide) (fun p hp => absurd hp (List.not_mem_nil p))).1

/- Empty environment. -/
def env3 : String → Option String := fun _ => none

/- A single required field A. -/
def schema3 : List (String × FieldDef) := [("A", .spec { required := true })]

/- Closed form of a collect-all validate run, shared by several proofs. -/
theorem validateFalse_eq (env : String → Option String) (schema : List (String × FieldDef)) :
    validate false env schema =
      .ok ⟨schema.filterMap (valueEntry env),
           if (schema.filterMap (errorOf env)).isEmpty then none
           else some (schema.filterMap (errorOf env)),
           (schema.filterMap (errorOf env)).isEmpty⟩ := by
  unfold validate
  rw [runFields_eq env false schema [] [] (Or.inl rfl)]
  simp

/-- C3, counterexample: with schema {A: required} and an empty environment in
collect-all mode, validate returns a result whose value mapping is EMPTY —
the schema key A does not appear in it (its required-check failed), refuting
that every schema key appears as a key of the value mapping. -/
theorem C3_keys_counterexample :
    validate false env3 schema3 =
      .ok ⟨[], some [⟨"Missing required environment variable: A", some "A"⟩], false⟩ := by
  rfl

/-- C3 (amended): the value mapping of a collect-all validate run consists of
exactly the schema entries, in schema order, whose processing assigned a
value (a coerced value, or the undefined marker for an absent optional field
without default); in particular every such key appears. Fields whose
required-check or coercion failed are absent from the mapping. -/
theorem C3_keys_amended (env : String → Option String) (schema : List (String × FieldDef))
    (r : ValidationResult) (h : validate false env schema = .ok r) :
    r.values = schema.filterMap (valueEntry env) ∧
    ∀ p ∈ schema, (processField env p.1 p.2).sets = true → p.1 ∈ r.values.map Prod.fst := by
  rw [validateFalse_eq env schema] at h
  have hval : r.values = schema.filterMap (valueEntry env) := by
    cases h.symm
    rfl
  refine ⟨hval, ?_⟩
  intro p hp hset
  rw [hval]
  rcases hout : processField env p.1 p.2 with v | e | e
  · apply List.mem_map.mpr
    refine ⟨(p.1, v), ?_, rfl⟩
    apply List.mem_filterMap.mpr
    exact ⟨p, hp, by simp [valueEntry, hout]⟩
  · rw [hout] at hset; simp [FieldOutcome.sets] at hset
  · rw [hout] at hset; simp [FieldOutcome.sets] at hset

/- The result of the C3 counterexample run, reused by the C3 witness. -/
def res3 : ValidationResult :=
  ⟨[], some [⟨"Missing required environment variable: A", some "A"⟩], false⟩

/-- C3 witness: the amended characterization applied to the concrete
collect-all run over schema {A: required} and the empty environment. -/
theorem C3_keys_amended_witness :
    res3.values = schema3.filterMap (valueEntry env3) ∧
    ∀ p ∈ schema3, (processField env3 p.1 p.2).sets = true →
      p.1 ∈ res3.values.map Prod.fst :=
  C3_keys_amended env3 schema3 res3 (by rfl)

/-- C4: in collect-all mode validate never throws: for every environment and
schema it returns the ValidationResult whose value mapping is the schema-
order filterMap of the per-field assignments (each field processed exactly
once, in schema order) and whose error list is the schema-order filterMap of
the per-field errors — so the error list order matches schema iteration
order, and the result is returned even when errors were accumulated. -/
theorem C4_collectAll (env : String → Option String) (schema : List (String × FieldDef)) :
    validate false env schema =
      .ok ⟨schema.filterMap (valueEntry env),
           if (schema.filterMap (errorOf env)).isEmpty then none
           else some (schema.filterMap (errorOf env)),
           (schema.filterMap (errorOf env)).isEmpty⟩ :=
  validateFalse_eq env schema

/- The url field configuration of the C5 scenario. -/
def c5cfg : FieldConfig := { type := .tag "url", protocols := some ["postgres"] }

/-- C5 (code bug): with protocols ["postgres"], the accept side holds —
"postgres://host/db" succeeds and yields the raw string — and
"mysql://host/db" is rejected, but the error raised is the generic
Invalid-URL error, NOT a constraint error stating the allowed protocols: in
the source, the protocol-violation error thrown inside the try block is
caught by validateUrl's own catch clause and replaced by the Invalid-URL
message, so the protocols message (third conjunct) never surfaces. -/
theorem C5_url_protocol_swallowed :
    validateUrl "mysql://host/db" "DATABASE_URL" c5cfg =
      .error ⟨"Invalid URL for DATABASE_URL: \"mysql://host/db\"", some "DATABASE_URL"⟩ ∧
    validateUrl "postgres://host/db" "DATABASE_URL" c5cfg = .ok "postgres://host/db" ∧
    (⟨"Invalid URL for DATABASE_URL: \"mysql://host/db\"", some "DATABASE_URL"⟩ : EGError) ≠
      ⟨"DATABASE_URL must use one of these protocols: postgres", some "DATABASE_URL"⟩ :=
  ⟨by rfl, by rfl, by decide⟩

/- A field whose raw value is present and non-empty goes straight through
   the coercion pipeline. -/
theorem processField_present (env : String → Option String) (k v : String) (c : FieldConfig)
    (hv : env k = some v) (hne : v ≠ "") :
    processField env k (.spec c) = fieldOutcomeOfParse (parseValue v c.type k c) := by
  simp only [processField, normalizeDef]
  rw [hv]
  rw [if_neg (by simp [hne])]
  simp only [Option.getD_some]
  cases hp : parseValue v c.type k c with
  | ok w => simp [fieldOutcomeOfParse, hp]
  | error e => simp [fieldOutcomeOfParse, hp]

/-- C6: for an optional field whose raw value is absent or empty and whose
spec defines a default d, the field's outcome is exactly the outcome of
running String(d) through the declared type's full coercion-and-constraint
pipeline (parseValue with the field's own config) — the same pipeline a
present raw value v goes through (second conjunct) — so a default violating
the field's constraints produces the same error a real value would. -/
theorem C6_default_pipeline (env : String → Option String) (k : String) (c : FieldConfig)
    (d : JSVal) (habs : env k = none ∨ env k = some "") (hreq : c.required = false)
    (hd : c.defaultVal = some d) :
    processField env k (.spec c) = fieldOutcomeOfParse (parseValue (jsToString d) c.type k c) ∧
    ∀ v : String, v ≠ "" →
      processField (fun x => if x = k then some v else env x) k (.spec c) =
        fieldOutcomeOfParse (parseValue v c.type k c) := by
  constructor
  · simp only [processField, normalizeDef]
    rw [if_pos habs, hreq]
    simp only [Bool.false_eq_true, if_false]
    rw [hd]
    cases hp : parseValue (jsToString d) c.type k c with
    | ok v => simp [fieldOutcomeOfParse, hp]
    | error e => simp [fieldOutcomeOfParse, hp]
  · intro v hv
    exact processField_present _ k v c (by simp) hv

/- The configuration of the C6 witness: a number field with min 10 whose
default 3 violates the constraint. -/
def c6cfg : FieldConfig :=
  { type := .tag "number", required := false, defaultVal := some (.num 3), min := some 10 }

/-- C6 witness: the theorem applied to the empty environment and the number
field with default 3 and min 10; the outcome is the pipeline's outcome on
String(3), which is the min-constraint error — a default violating the
constraints errors exactly like a real value. -/
theorem C6_default_pipeline_witness :
    processField env3 "PORT" (.spec c6cfg) =
      fieldOutcomeOfParse (parseValue (jsToString (.num 3)) c6cfg.type "PORT" c6cfg) ∧
    processField env3 "PORT" (.spec c6cfg) = .threw (numMinError "PORT" 10) :=
  ⟨(C6_default_pipeline env3 "PORT" c6cfg (.num 3) (Or.inl rfl) rfl rfl).1, by decide⟩

/-- C7: the number coercer parses the raw string with Number() and fails
with a field error exactly when the string is not parseable (NaN), the
parsed value is below a configured min, above a configured max, or integer
is required and the value is not an integer — checked in that order, as the
last four conjuncts pin down (each failure fires only when the earlier
checks pass, and produces that check's error) — and on success it returns
the parsed numeric value. -/
theorem C7_number_checks (v k : String) (c : FieldConfig) :
    (∀ n, validateNumber v k c = .ok n → n = jsToNumber v) ∧
    ((∃ e, validateNumber v k c = .error e) ↔
      ((jsToNumber v).isNaN = true ∨
       (∃ m, c.min = some m ∧ (jsToNumber v).ltQ m = true) ∨
       (∃ m, c.max = some m ∧ (jsToNumber v).gtQ m = true) ∨
       (c.integer = true ∧ (jsToNumber v).isInt = false))) ∧
    ((jsToNumber v).isNaN = true → validateNumber v k c = .error (numTypeError k v)) ∧
    (∀ m, (jsToNumber v).isNaN = false → c.min = some m → (jsToNumber v).ltQ m = true →
      validateNumber v k c = .error (numMinError k m)) ∧
    (∀ m, (jsToNumber v).isNaN = false →
      (∀ m0, c.min = some m0 → (jsToNumber v).ltQ m0 = false) →
      c.max = some m → (jsToNumber v).gtQ m = true →
      validateNumber v k c = .error (numMaxError k m)) ∧
    ((jsToNumber v).isNaN = false →
      (∀ m0, c.min = some m0 → (jsToNumber v).ltQ m0 = false) →
      (∀ m0, c.max = some m0 → (jsToNumber v).gtQ m0 = false) →
      c.integer = true → (jsToNumber v).isInt = false →
      validateNumber v k c = .error (numIntError k)) ∧
    ((jsToNumber v).isNaN = false →
      (∀ m0, c.min = some m0 → (jsToNumber v).ltQ m0 = false) →
      (∀ m0, c.max = some m0 → (jsToNumber v).gtQ m0 = false) →
      (c.integer = true → (jsToNumber v).isInt = true) →
      validateNumber v k c = .ok (jsToNumber v)) := by
  simp only [validateNumber, numCheckMin, numCheckMax, numCheckInt]
  rcases hmin : c.min with _ | m1 <;>
    rcases hmax : c.max with _ | m2 <;>
      rcases hint : c.integer with _ | _ <;>
        rcases hn : (jsToNumber v).isNaN with _ | _ <;>
          simp_all <;> (repeat' split) <;> simp_all

/- The number field configuration of the C7 witness. -/
def c7cfg : FieldConfig := { type := .tag "number", min := some 1, max := some 100 }

/-- C7 witness: the success conjunct of the number-coercer characterization
applied to "42" with min 1 and max 100 yields the numeric value 42. -/
theorem C7_number_checks_witness :
    validateNumber "42" "PORT" c7cfg = .ok (jsToNumber "42") :=
  (C7_number_checks "42" "PORT" c7cfg).2.2.2.2.2.2 (by decide)
    (by intro m0 h; simp only [c7cfg] at h; cases h; decide)
    (by intro m0 h; simp only [c7cfg] at h; cases h; decide)
    (fun _ => by decide)

/- The string field configuration of the C8 counterexample: maxLength 0. -/
def c8cfg : FieldConfig := { type := .tag "string", maxLength := some 0 }

/-- C8, counterexample: with a configured maxLength of 0, the three-character
string "abc" exceeds the bound, yet validateString accepts it — the source
guards each length bound by truthiness, so a configured bound of 0 is
ignored, refuting "for every configured bound, including 0". -/
theorem C8_maxLength_zero_counterexample :
    validateString "abc" "S" c8cfg = .ok "abc" := by rfl

/-- C8 (amended): the string coercer is the identity on the raw string, and
it fails exactly when the length is below a configured NONZERO minLength,
above a configured NONZERO maxLength, or the string fails the configured
pattern, checked in that order (a bound configured as 0 is ignored, because
the source tests the bounds for truthiness). -/
theorem C8_string_checks (v k : String) (c : FieldConfig) :
    (∀ s, validateString v k c = .ok s → s = v) ∧
    ((∃ e, validateString v k c = .error e) ↔
      ((∃ n, c.minLength = some n ∧ n ≠ 0 ∧ v.length < n) ∨
       (∃ n, c.maxLength = some n ∧ n ≠ 0 ∧ n < v.length) ∨
       (∃ p, c.pattern = some p ∧ p v = false))) ∧
    (∀ n, c.minLength = some n → n ≠ 0 → v.length < n →
      validateString v k c = .error (strMinError k n)) ∧
    (∀ n, (∀ n0, c.minLength = some n0 → n0 = 0 ∨ ¬v.length < n0) →
      c.maxLength = some n → n ≠ 0 → n < v.length →
      validateString v k c = .error (strMaxError k n)) ∧
    (∀ p, (∀ n0, c.minLength = some n0 → n0 = 0 ∨ ¬v.length < n0) →
      (∀ n0, c.maxLength = some n0 → n0 = 0 ∨ ¬n0 < v.length) →
      c.pattern = some p → p v = false →
      validateString v k c = .error (strPatError k)) ∧
    ((∀ n0, c.minLength = some n0 → n0 = 0 ∨ ¬v.length < n0) →
      (∀ n0, c.maxLength = some n0 → n0 = 0 ∨ ¬n0 < v.length) →
      (∀ p, c.pattern = some p → p v = true) →
      validateString v k c = .ok v) := by
  simp only [validateString, strCheckMin, strCheckMax, strCheckPat]
  rcases hmin : c.minLength with _ | n1 <;>
    rcases hmax : c.maxLength with _ | n2 <;>
      rcases hpat : c.pattern with _ | p0 <;>
        simp_all <;> (repeat' split) <;> simp_all

/- The string field configuration of the C8 witness: minLength 2, maxLength
   3, and a pattern accepting only lowercase letters. -/
def c8wcfg : FieldConfig :=
  { type := .tag "string", minLength := some 2, maxLength := some 3,
    pattern := some (fun s => s.toList.all Char.isLower) }

/-- C8 witness: the amended characterization's first-check conjunct applied
to "abcd" with maxLength 3 (and minLength 2 satisfied) produces the
maxLength error. -/
theorem C8_string_checks_witness :
    validateString "abcd" "S" c8wcfg = .error (strMaxError "S" 3) :=
  (C8_string_checks "abcd" "S" c8wcfg).2.2.2.1 3
    (by intro n0 h; simp only [c8wcfg] at h; cases h; right; decide)
    (by simp only [c8wcfg]) (by decide) (by decide)

/- The seven built-in type tags of parseValue's switch. -/
def builtinTags : List String :=
  ["string", "number", "boolean", "array", "url", "email", "enum"]

/-- C9: for a field whose type is a string tag that is none of the built-in
tags (and not a function), parseValue's default branch returns the raw
string unchanged with no error, so whenever a value is present the field
validates successfully to that raw string. -/
theorem C9_unknown_type (v t k : String) (c : FieldConfig) (ht : t ∉ builtinTags) :
    parseValue v (.tag t) k c = .ok (.str v) ∧
    ∀ (env : String → Option String) (c2 : FieldConfig), env k = some v → v ≠ "" →
      c2.type = .tag t → processField env k (.spec c2) = .setValue (some (.str v)) := by
  simp only [builtinTags, List.mem_cons, List.not_mem_nil, or_false, not_or] at ht
  obtain ⟨h1, h2, h3, h4, h5, h6, h7⟩ := ht
  have hpv : ∀ c' : FieldConfig, parseValue v (.tag t) k c' = .ok (.str v) := by
    intro c'
    simp [parseValue, h1, h2, h3, h4, h5, h6, h7]
  refine ⟨hpv c, ?_⟩
  intro env c2 henv hvne htype
  rw [processField_present env k v c2 henv hvne, htype, hpv c2]
  rfl

/-- C9 witness: the misspelled tag "strng" is not a built-in tag, and
parseValue returns the raw string "hello" unchanged with no error. -/
theorem C9_unknown_type_witness :
    parseValue "hello" (.tag "strng") "K" {} = .ok (.str "hello") :=
  (C9_unknown_type "hello" "strng" "K" {} (by decide)).1

/-- C10: whenever validate returns a ValidationResult (any mode), the errors
field is null — not an empty list — exactly when isValid is true, and it is
a non-empty list exactly when isValid is false. -/
theorem C10_errors_null (strict : Bool) (env : String → Option String)
    (schema : List (String × FieldDef)) (r : ValidationResult)
    (h : validate strict env schema = .ok r) :
    (r.errors = none ↔ r.isValid = true) ∧
    (∀ l, r.errors = some l → l ≠ [] ∧ r.isValid = false) ∧
    (r.isValid = false → ∃ l, r.errors = some l ∧ l ≠ []) := by
  unfold validate at h
  cases hrun : runFields strict env schema [] [] with
  | error e => rw [hrun] at h; exact absurd h (by simp)
  | ok pr =>
    obtain ⟨res, errs⟩ := pr
    rw [hrun] at h
    simp only at h
    split at h
    · exact absurd h (by simp)
    · injection h with h2
      subst h2
      cases errs with
      | nil => simp
      | cons a as => simp

/- A concrete valid run for the C10 witness. -/
def envW : String → Option String := fun _ => some "x"

def schemaW : List (String × FieldDef) := [("A", .bare (.tag "string"))]

def resW : ValidationResult := ⟨[("A", some (.str "x"))], none, true⟩

/-- C10 witness: the errors/isValid relationship instantiated on a concrete
successful collect-all run (errors is null, isValid is true). -/
theorem C10_errors_null_witness :
    (resW.errors = none ↔ resW.isValid = true) ∧
    (∀ l, resW.errors = some l → l ≠ [] ∧ resW.isValid = false) ∧
    (resW.isValid = false → ∃ l, resW.errors = some l ∧ l ≠ []) :=
  C10_errors_null false envW schemaW resW (by rfl)
